import Mathlib

/-!
# Verification of the sc-minio S3 client core

Shallow embedding of the multipart-upload orchestration, request
validation and error-handling logic of the `sc-minio` Rust client
(`src/client/operate_object.rs`, `src/client/client.rs`,
`src/client/operate_bucket.rs`, `src/executor/mod.rs`), together with
proofs of the behavioural properties stated in the specification.

Code that the repository references but whose source is not part of the
six embedded files (the `signer` constants, `utils::check_bucket_name`,
and the four low-level multipart calls) is modelled from the
specification; each such definition is marked `Modelled from the spec`.
-/

namespace SCMinio

/-- The error type of the library, reduced to the variants the embedded
operations construct or inspect (`Error` in `errors.rs`): a service
error carrying its machine-readable code, a local validation error, a
local I/O error, an XML parse error and a transport error. -/
inductive MError where
  | s3Error (code : String)
  | valueError (msg : String)
  | ioError (msg : String)
  | xmlError (msg : String)
  | transportError (msg : String)
deriving DecidableEq, Repr

instance {ε α : Type} [DecidableEq ε] [DecidableEq α] : DecidableEq (Except ε α) :=
  fun a b =>
  match a, b with
  | .ok x, .ok y =>
      if h : x = y then isTrue (h ▸ rfl) else isFalse (fun hh => h (Except.ok.inj hh))
  | .error x, .error y =>
      if h : x = y then isTrue (h ▸ rfl) else isFalse (fun hh => h (Except.error.inj hh))
  | .ok _, .error _ => isFalse (fun hh => Except.noConfusion hh)
  | .error _, .ok _ => isFalse (fun hh => Except.noConfusion hh)

/-- Modelled from the spec: `signer::MIN_PART_SIZE`, the configured
minimum part size, 5 MiB. -/
def MIN_PART_SIZE : Nat := 5 * 1024 * 1024

/-- Modelled from the spec: `signer::MAX_MULTIPART_OBJECT_SIZE`, the
protocol's maximum total object size, 5 TiB. -/
def MAX_MULTIPART_OBJECT_SIZE : Nat := 5 * 1024 * 1024 * 1024 * 1024

/-- Part count computed by `put_object_large` (operate_object.rs:182-186)
and by `fput_object` (operate_object.rs:284-288):
`if len > part_size { len / part_size + 1 } else { 1 }`. -/
def partCount (len : Nat) : Nat :=
  if len > MIN_PART_SIZE then len / MIN_PART_SIZE + 1 else 1

/-- Size of the `i`-th (0-based) slice taken by the loop of
`put_object_large` (operate_object.rs:188-195): `start = i * part_size`,
`end = if i == part_count - 1 { len } else { start + part_size }`. -/
def largePartSize (len i : Nat) : Nat :=
  let start := i * MIN_PART_SIZE
  let stop := if i = partCount len - 1 then len else start + MIN_PART_SIZE
  stop - start

/-- The list of slice sizes uploaded by `put_object_large` for an
in-memory payload of length `len`. -/
def largePartSizes (len : Nat) : List Nat :=
  (List.range (partCount len)).map (largePartSize len)

/-- The list of body sizes sent by `put_object`
(operate_object.rs:153-172): payloads larger than `MIN_PART_SIZE` are
delegated to `put_object_large`, anything else is sent as one body. -/
def putObjectPartSizes (len : Nat) : List Nat :=
  if len > MIN_PART_SIZE then largePartSizes len else [len]

/-- C1: for an in-memory payload of length `L` uploaded via `put_object`
with minimum part size `P`, the multipart split produces `1` part when
`L ≤ P` and `L / P + 1` parts otherwise; every part except the last has
size exactly `P` and the last part gets the remainder. In particular for
`L = 12 MiB` exactly 3 parts of sizes `[5, 5, 2]` MiB are produced, and
for `L = 4 MiB` exactly one part of 4 MiB. -/
theorem put_object_split_correct :
    (∀ len, len ≤ MIN_PART_SIZE → partCount len = 1) ∧
    (∀ len, MIN_PART_SIZE < len → partCount len = len / MIN_PART_SIZE + 1) ∧
    (∀ len, (largePartSizes len).length = partCount len) ∧
    (∀ len i, i + 1 < partCount len → largePartSize len i = MIN_PART_SIZE) ∧
    (∀ len, largePartSize len (partCount len - 1)
        = len - (partCount len - 1) * MIN_PART_SIZE) ∧
    putObjectPartSizes (12 * 1024 * 1024)
      = [5 * 1024 * 1024, 5 * 1024 * 1024, 2 * 1024 * 1024] ∧
    putObjectPartSizes (4 * 1024 * 1024) = [4 * 1024 * 1024] := by
  refine ⟨?_, ?_, ?_, ?_, ?_, by decide, by decide⟩
  · intro len h
    unfold partCount
    rw [if_neg (by omega)]
  · intro len h
    unfold partCount
    rw [if_pos (by omega)]
  · intro len
    simp [largePartSizes]
  · intro len i h
    have hne : i ≠ partCount len - 1 := by omega
    simp only [largePartSize]
    rw [if_neg hne]
    omega
  · intro len
    simp [largePartSize]

/-- Witness for `put_object_split_correct` at concrete inputs. -/
theorem put_object_split_correct_witness :
    partCount (4 * 1024 * 1024) = 1 ∧
    largePartSize (12 * 1024 * 1024) 0 = MIN_PART_SIZE :=
  ⟨put_object_split_correct.1 (4 * 1024 * 1024) (by decide),
   put_object_split_correct.2.2.2.1 (12 * 1024 * 1024) 0 (by decide)⟩

/-! ## Request validation and dispatch (`client.rs`, `executor/mod.rs`) -/

/-- Characters admitted by the DNS-safe bucket-name charset: lower-case
letters, digits, hyphen and dot. -/
def bucketChar (c : Char) : Bool := c.isLower || c.isDigit || c = '-' || c = '.'

/-- Split a character list at every dot (helper for the IP-literal test). -/
def splitOnDot : List Char → List (List Char)
  | [] => [[]]
  | c :: rest =>
    let r := splitOnDot rest
    if c = '.' then [] :: r
    else
      match r with
      | [] => [[c]]
      | h :: t => (c :: h) :: t

/-- A name formatted as an IPv4 literal: four dot-separated, non-empty,
all-digit groups. -/
def isIPLiteral (s : String) : Bool :=
  let parts := splitOnDot s.toList
  decide (parts.length = 4) && parts.all fun p => !p.isEmpty && p.all Char.isDigit

/-- Modelled from the spec: `utils::check_bucket_name` (not under src/):
DNS-safe charset, length 3–63, no leading or trailing hyphen, not
formatted as an IP literal. -/
def check_bucket_name (s : String) : Bool :=
  let cs := s.toList
  decide (3 ≤ cs.length) && decide (cs.length ≤ 63) &&
  cs.all bucketChar &&
  decide (cs.head? ≠ some '-') && decide (cs.getLast? ≠ some '-') &&
  !isIPLiteral s

/-- The local validation of `Minio::_execute` (client.rs:298-310), run
before the URI is built and before `_url_open` is reached: a present
bucket name must pass `check_bucket_name`; an object name must be
non-empty, and requires a bucket name to be present. -/
def executeCheck (bucket_name object_name : Option String) : Except MError Unit :=
  let bcheck : Except MError Unit :=
    match bucket_name with
    | some b =>
      if check_bucket_name b then .ok () else .error (.valueError "Invalid bucket name")
    | none => .ok ()
  match bcheck with
  | .error e => .error e
  | .ok _ =>
    match object_name with
    | some o =>
      if o = "" then .error (.valueError "Object name cannot be empty.")
      else
        match bucket_name with
        | none => .error (.valueError "Miss bucket name.")
        | some _ => .ok ()
    | none => .ok ()

/-- Outcome of a finalized request: a response with its status, a
returned error, or a Rust panic. -/
inductive ReqOutcome where
  | ok (status : Nat)
  | error (e : MError)
  | panic
deriving DecidableEq, Repr

/-- The single network event emitted by `_url_open`. -/
inductive ExecEvent where
  | network
deriving DecidableEq, Repr

/-- Embedding of `Minio::_url_open` (client.rs:218-269): signs and sends the request,
then calls `.unwrap()` on the transport result (client.rs:258-266) — a
transport failure panics instead of being returned as an error. -/
def url_open (transport : Except MError Nat) : ReqOutcome :=
  match transport with
  | .ok status => .ok status
  | .error _ => .panic

/-- Embedding of `Minio::_execute` (client.rs:288-321): run the local validation, and
only if it passes build the URI and dispatch through `_url_open`. The
returned event list records whether the network was reached. -/
def execute (transport : Except MError Nat) (bucket_name object_name : Option String) :
    List ExecEvent × ReqOutcome :=
  match executeCheck bucket_name object_name with
  | .error e => ([], .error e)
  | .ok _ => ([.network], url_open transport)

/-- A service response as seen by the executor: HTTP status and body. -/
structure Resp where
  status : Nat
  body : String
deriving DecidableEq, Repr

/-- Status check `StatusCode::is_success`: 2xx. -/
def statusIsSuccess (s : Nat) : Bool := decide (200 ≤ s) && decide (s < 300)

/-- Embedding of `BaseExecutor::send` (executor/mod.rs:165-178): returns the service
response whatever its HTTP status. -/
def send (resp : Resp) : Except MError Resp := .ok resp

/-- Embedding of `BaseExecutor::send_ok` (executor/mod.rs:183-192): calls `send`; a
2xx response is returned as-is, otherwise the body text is parsed into an
`S3Error` (`text.as_str().try_into()?`; the XML parse itself lives
outside src/ and is passed in as `parse`, returning the error code) and
surfaced as a failure. -/
def send_ok (parse : String → Except MError String) (resp : Resp) : Except MError Resp :=
  match send resp with
  | .error e => .error e
  | .ok res =>
    if statusIsSuccess res.status then .ok res
    else
      match parse res.body with
      | .ok code => .error (.s3Error code)
      | .error pe => .error pe

/-! ## Error-code reinterpretation (`operate_bucket.rs`, `operate_object.rs`) -/

/-- The match of `Minio::get_bucket_tags` (operate_bucket.rs:239-243) on
the result of `send_xml_ok::<Tags>`: success wraps the tags in `Some`, a
service error coded `NoSuchTagSet` becomes `Ok(None)`, every other error
is propagated. -/
def get_bucket_tags_handle {α : Type} (res : Except MError α) : Except MError (Option α) :=
  match res with
  | .ok tags => .ok (some tags)
  | .error (.s3Error code) =>
      if code = "NoSuchTagSet" then .ok none else .error (.s3Error code)
  | .error err => .error err

/-- The match of `Minio::is_object_legal_hold_enabled`
(operate_object.rs:429-443) on the result of `send_text_ok`: on success
the body is decoded into a `LegalHold` and reduced to `is_enable()`
(decoding lives outside src/ and is passed in as `parse`); a service
error coded `NoSuchObjectLockConfiguration` becomes `Ok(false)`; every
other error is propagated. -/
def is_object_legal_hold_enabled_handle (parse : String → Except MError Bool)
    (res : Except MError String) : Except MError Bool :=
  match res with
  | .ok s => parse s
  | .error (.s3Error code) =>
      if code = "NoSuchObjectLockConfiguration" then .ok false
      else .error (.s3Error code)
  | .error err => .error err

/-- C5: every request finalized through `_execute` with an invalid bucket
name, an empty object name, or an object name without a bucket name
returns a validation failure before any network activity; the bucket
names "abc" and "my-bucket.1" are accepted while "AB", "a",
"192.168.0.1" and "-abc" are rejected. -/
theorem execute_validates_before_network :
    (∀ transport o bn, check_bucket_name bn = false →
      ∃ msg, execute transport (some bn) o = ([], .error (.valueError msg))) ∧
    (∀ transport b,
      ∃ msg, execute transport b (some "") = ([], .error (.valueError msg))) ∧
    (∀ transport objn,
      ∃ msg, execute transport none (some objn) = ([], .error (.valueError msg))) ∧
    check_bucket_name "abc" = true ∧ check_bucket_name "my-bucket.1" = true ∧
    check_bucket_name "AB" = false ∧ check_bucket_name "a" = false ∧
    check_bucket_name "192.168.0.1" = false ∧ check_bucket_name "-abc" = false := by
  refine ⟨?_, ?_, ?_, by decide, by decide, by decide, by decide, by decide, by decide⟩
  · intro transport o bn hcb
    exact ⟨"Invalid bucket name", by simp [execute, executeCheck, hcb]⟩
  · intro transport b
    match b with
    | none => exact ⟨"Object name cannot be empty.", by simp [execute, executeCheck]⟩
    | some bn =>
      cases hcb : check_bucket_name bn
      · exact ⟨"Invalid bucket name", by simp [execute, executeCheck, hcb]⟩
      · exact ⟨"Object name cannot be empty.", by simp [execute, executeCheck, hcb]⟩
  · intro transport objn
    by_cases hoe : objn = ""
    · subst hoe
      exact ⟨"Object name cannot be empty.", by simp [execute, executeCheck]⟩
    · exact ⟨"Miss bucket name.", by simp [execute, executeCheck, hoe]⟩

/-- Witness for `execute_validates_before_network` at a concrete input. -/
theorem execute_validates_before_network_witness :
    ∃ msg, execute (.ok 200) (some "-abc") none = ([], .error (.valueError msg)) :=
  execute_validates_before_network.1 (.ok 200) none "-abc" (by decide)

/-- C6: `send` returns the service response whatever its HTTP status;
`send_ok` returns `Ok` exactly on a 2xx status and otherwise parses the
body into a typed S3 service error and returns it as a failure — it
never returns `Ok` for a non-2xx status. -/
theorem send_ok_status_semantics :
    (∀ resp, send resp = .ok resp) ∧
    (∀ parse resp, statusIsSuccess resp.status = true → send_ok parse resp = .ok resp) ∧
    (∀ parse resp code, statusIsSuccess resp.status = false →
      parse resp.body = .ok code → send_ok parse resp = .error (.s3Error code)) ∧
    (∀ parse resp r, send_ok parse resp = .ok r → statusIsSuccess resp.status = true) := by
  refine ⟨fun _ => rfl, ?_, ?_, ?_⟩
  · intro parse resp h
    simp [send_ok, send, h]
  · intro parse resp code hs hp
    simp [send_ok, send, hs, hp]
  · intro parse resp r h
    cases hs : statusIsSuccess resp.status
    · exfalso
      rw [send_ok, send] at h
      simp only [hs] at h
      cases hp : parse resp.body <;> simp [hp] at h
    · rfl

/-- Witness for `send_ok_status_semantics` at a concrete response. -/
theorem send_ok_status_semantics_witness :
    send_ok (fun _ => .ok "NoSuchKey") ⟨404, "body"⟩ = .error (.s3Error "NoSuchKey") :=
  send_ok_status_semantics.2.2.1 (fun _ => .ok "NoSuchKey") ⟨404, "body"⟩ "NoSuchKey"
    (by decide) rfl

/-- C7: `get_bucket_tags` returns `Ok(None)` exactly when the service
error code is `NoSuchTagSet`, `is_object_legal_hold_enabled` turns a
service error into `Ok(false)` exactly when the code is
`NoSuchObjectLockConfiguration`, and every other service error is
propagated to the caller unchanged. -/
theorem absent_result_translation :
    (∀ (α : Type) (res : Except MError α),
      get_bucket_tags_handle res = .ok none ↔ res = .error (.s3Error "NoSuchTagSet")) ∧
    (∀ (α : Type) (e : MError), e ≠ .s3Error "NoSuchTagSet" →
      get_bucket_tags_handle (α := α) (.error e) = .error e) ∧
    (∀ parse (e : MError),
      is_object_legal_hold_enabled_handle parse (.error e) = .ok false ↔
        e = .s3Error "NoSuchObjectLockConfiguration") ∧
    (∀ parse (e : MError), e ≠ .s3Error "NoSuchObjectLockConfiguration" →
      is_object_legal_hold_enabled_handle parse (.error e) = .error e) := by
  refine ⟨?_, ?_, ?_, ?_⟩
  · intro α res
    constructor
    · intro h
      match res with
      | .ok a => simp [get_bucket_tags_handle] at h
      | .error (.s3Error code) =>
        by_cases hc : code = "NoSuchTagSet"
        · subst hc; rfl
        · simp [get_bucket_tags_handle, hc] at h
      | .error (.valueError m) => simp [get_bucket_tags_handle] at h
      | .error (.ioError m) => simp [get_bucket_tags_handle] at h
      | .error (.xmlError m) => simp [get_bucket_tags_handle] at h
      | .error (.transportError m) => simp [get_bucket_tags_handle] at h
    · intro h
      subst h
      simp [get_bucket_tags_handle]
  · intro α e he
    match e with
    | .s3Error code =>
      have hc : code ≠ "NoSuchTagSet" := fun hh => he (by rw [hh])
      simp [get_bucket_tags_handle, hc]
    | .valueError m => rfl
    | .ioError m => rfl
    | .xmlError m => rfl
    | .transportError m => rfl
  · intro parse e
    constructor
    · intro h
      match e with
      | .s3Error code =>
        by_cases hc : code = "NoSuchObjectLockConfiguration"
        · subst hc; rfl
        · simp [is_object_legal_hold_enabled_handle, hc] at h
      | .valueError m => simp [is_object_legal_hold_enabled_handle] at h
      | .ioError m => simp [is_object_legal_hold_enabled_handle] at h
      | .xmlError m => simp [is_object_legal_hold_enabled_handle] at h
      | .transportError m => simp [is_object_legal_hold_enabled_handle] at h
    · intro h
      subst h
      simp [is_object_legal_hold_enabled_handle]
  · intro parse e he
    match e with
    | .s3Error code =>
      have hc : code ≠ "NoSuchObjectLockConfiguration" := fun hh => he (by rw [hh])
      simp [is_object_legal_hold_enabled_handle, hc]
    | .valueError m => rfl
    | .ioError m => rfl
    | .xmlError m => rfl
    | .transportError m => rfl

/-- Witness for `absent_result_translation` at a concrete error code. -/
theorem absent_result_translation_witness :
    get_bucket_tags_handle (α := Nat) (.error (.s3Error "AccessDenied"))
      = .error (.s3Error "AccessDenied") :=
  absent_result_translation.2.1 Nat (.s3Error "AccessDenied") (by decide)

/-! ## Multipart orchestration (`operate_object.rs`)

The four low-level multipart calls and the single-body `PUT` are code of
the repository outside src/; their outcomes are supplied by an
environment `MpuEnv`, and the orchestration itself is embedded from
`operate_object.rs`. Each run returns the list of signed calls issued,
in order, together with the value returned to the caller. -/

/-- Outcome of `put_object_stream`, which can also reach the `todo!()`
panic at operate_object.rs:238. -/
inductive StreamOutcome where
  | ok
  | error (e : MError)
  | panic
deriving DecidableEq, Repr

/-- A signed call issued by a multipart orchestration. -/
inductive MpuEvent where
  | create
  | uploadPart (partNumber size : Nat)
  | complete (partNumbers : List Nat)
  | abort
  | simplePut (size : Nat)
deriving DecidableEq, Repr

/-- Modelled from the spec: the outcomes of `create_multipart_upload`,
`upload_part`, `complete_multipart_upload`, `abort_multipart_upload` and
of a single-body `PUT` (all outside src/), as decided by the service and
transport. A successful `upload_part` yields the `Part` record carrying
the part number it was called with; the completed part list is
represented by its part numbers. -/
structure MpuEnv where
  createResult : Except MError Unit
  uploadResult : Nat → Nat → Except MError Unit
  completeResult : List Nat → Except MError Unit
  abortResult : Except MError Unit
  putResult : Nat → Except MError Unit

/-- The error returned after the abort that follows a failed call: the
original error when the abort succeeds, the abort's own error otherwise
(the `?` at operate_object.rs:199,312,320 and the match at
operate_object.rs:225-228,245-248). -/
def abortAdjust (env : MpuEnv) (e : MError) : MError :=
  match env.abortResult with
  | .ok _ => e
  | .error ae => ae

/-- The sequential part-upload loop of `put_object_large`
(operate_object.rs:188-204) and of the multipart branch of `fput_object`
(operate_object.rs:300-325): parts are uploaded with numbers
`nextNum, nextNum + 1, …`; each success appends the returned part to
`acc`; a failure aborts the session and returns. -/
def uploadParts (env : MpuEnv) (sizes : List Nat) (nextNum : Nat) (acc : List Nat) :
    List MpuEvent × Except MError (List Nat) :=
  match sizes with
  | [] => ([], .ok acc)
  | size :: rest =>
    match env.uploadResult nextNum size with
    | .ok _ =>
      let r := uploadParts env rest (nextNum + 1) (acc ++ [nextNum])
      (.uploadPart nextNum size :: r.1, r.2)
    | .error e =>
      ([.uploadPart nextNum size, .abort], .error (abortAdjust env e))

/-- The create → upload loop → complete shape shared verbatim by
`put_object_large` (operate_object.rs:177-209) and the multipart branch
of `fput_object` (operate_object.rs:298-327): a failed create is fatal
(nothing to abort); a loop failure is returned as produced by the loop;
a completion failure is propagated as-is (neither code site aborts on
completion failure). -/
def mpuRun (env : MpuEnv) (sizes : List Nat) : List MpuEvent × Except MError Unit :=
  match env.createResult with
  | .error e => ([.create], .error e)
  | .ok _ =>
    let r := uploadParts env sizes 1 []
    match r.2 with
    | .error e => (.create :: r.1, .error e)
    | .ok parts =>
      (.create :: r.1 ++ [.complete parts],
       match env.completeResult parts with
       | .ok _ => .ok ()
       | .error e => .error e)

/-- Embedding of `Minio::put_object_large` (operate_object.rs:177-209). -/
def put_object_large (env : MpuEnv) (len : Nat) : List MpuEvent × Except MError Unit :=
  mpuRun env (largePartSizes len)

/-- Embedding of `Minio::put_object` (operate_object.rs:153-172): payloads larger than
`MIN_PART_SIZE` are delegated to `put_object_large`, anything else is
sent as one simple `PUT` body through `send_ok`. -/
def put_object (env : MpuEnv) (len : Nat) : List MpuEvent × Except MError Unit :=
  if len > MIN_PART_SIZE then put_object_large env len
  else
    ([.simplePut len],
     match env.putResult len with
     | .ok _ => .ok ()
     | .error e => .error e)

/-- The while-let loop of `put_object_stream`
(operate_object.rs:218-253), including the final flush and completion.
On each arriving piece the buffer is flushed first if it holds at least
`MIN_PART_SIZE` bytes (part number `parts.len() + 1`; a failed flush
aborts and returns), then the piece is appended to the buffer — an `Err`
piece reaches the `todo!()` at operate_object.rs:238 and panics. At
stream end a non-empty buffer is flushed as a final part, then the part
list is completed (a completion failure is propagated without abort). -/
def streamLoop (env : MpuEnv) (chunks : List (Except MError Nat))
    (current : Nat) (parts : List Nat) : List MpuEvent × StreamOutcome :=
  match chunks with
  | piece :: rest =>
    if MIN_PART_SIZE ≤ current then
      let n := parts.length + 1
      match env.uploadResult n current with
      | .ok _ =>
        match piece with
        | .ok c =>
          let r := streamLoop env rest c (parts ++ [n])
          (.uploadPart n current :: r.1, r.2)
        | .error _ => ([.uploadPart n current], .panic)
      | .error e =>
        ([.uploadPart n current, .abort], .error (abortAdjust env e))
    else
      match piece with
      | .ok c => streamLoop env rest (current + c) parts
      | .error _ => ([], .panic)
  | [] =>
    if current ≠ 0 then
      let n := parts.length + 1
      match env.uploadResult n current with
      | .ok _ =>
        ([.uploadPart n current, .complete (parts ++ [n])],
         match env.completeResult (parts ++ [n]) with
         | .ok _ => .ok
         | .error e => .error e)
      | .error e => ([.uploadPart n current, .abort], .error (abortAdjust env e))
    else
      ([.complete parts],
       match env.completeResult parts with
       | .ok _ => .ok
       | .error e => .error e)

/-- Embedding of `Minio::put_object_stream` (operate_object.rs:214-256): initiate the
session, then run the buffering loop. The stream is a list of chunk
outcomes (`Ok` chunks carry their length). -/
def put_object_stream (env : MpuEnv) (chunks : List (Except MError Nat)) :
    List MpuEvent × StreamOutcome :=
  match env.createResult with
  | .error e => ([.create], .error e)
  | .ok _ =>
    let r := streamLoop env chunks 0 []
    (.create :: r.1, r.2)

/-- Size of the `i`-th (0-based) slice read and uploaded by the multipart
branch of `fput_object` (operate_object.rs:300-316): `MIN_PART_SIZE` for
every part but the last, `file_size - MIN_PART_SIZE * i` for the last. -/
def fputPartSize (file_size i : Nat) : Nat :=
  if i = partCount file_size - 1 then file_size - MIN_PART_SIZE * i
  else MIN_PART_SIZE

/-- The slice sizes uploaded by the multipart branch of `fput_object`. -/
def fputPartSizes (file_size : Nat) : List Nat :=
  (List.range (partCount file_size)).map (fputPartSize file_size)

/-- Embedding of `Minio::fput_object` (operate_object.rs:272-330): a file whose size
reaches `MAX_MULTIPART_OBJECT_SIZE` is rejected before anything else; a
one-part file is read whole and handed to `put_object`; otherwise the
multipart create → loop → complete shape runs on the per-part slices.
File reads are modelled as succeeding (the `read_buf` error path at
operate_object.rs:309-315 is not exercised by the claims). -/
def fput_object (env : MpuEnv) (file_size : Nat) : List MpuEvent × Except MError Unit :=
  if file_size ≥ MAX_MULTIPART_OBJECT_SIZE then
    ([], .error (.valueError "max object size is 5TiB"))
  else if partCount file_size = 1 then
    put_object env file_size
  else
    mpuRun env (fputPartSizes file_size)

/-- The sizes of the parts uploaded in a trace, in call order. -/
def uploadSizesOf (evs : List MpuEvent) : List Nat :=
  evs.filterMap fun ev =>
    match ev with
    | .uploadPart _ s => some s
    | _ => none

/-- The part numbers uploaded in a trace, in call order. -/
def partNumbersOf (evs : List MpuEvent) : List Nat :=
  evs.filterMap fun ev =>
    match ev with
    | .uploadPart n _ => some n
    | _ => none

/-- The buffer/flush discipline of `put_object_stream` reduced to sizes
(operate_object.rs:220-253): with `current` bytes buffered, each chunk
arrival first flushes the buffer if it has reached `MIN_PART_SIZE`, then
appends the chunk; at stream end a non-empty buffer is flushed as the
final part. -/
def streamParts (chunks : List Nat) (current : Nat) : List Nat :=
  match chunks with
  | [] => if current ≠ 0 then [current] else []
  | c :: rest =>
    if MIN_PART_SIZE ≤ current then current :: streamParts rest c
    else streamParts rest (current + c)

/-- An environment in which every service call succeeds. -/
def envAllOk : MpuEnv where
  createResult := .ok ()
  uploadResult := fun _ _ => .ok ()
  completeResult := fun _ => .ok ()
  abortResult := .ok ()
  putResult := fun _ => .ok ()

/-- An environment in which completion fails and everything else
succeeds. -/
def envCompleteFails : MpuEnv where
  createResult := .ok ()
  uploadResult := fun _ _ => .ok ()
  completeResult := fun _ => .error (.s3Error "InternalError")
  abortResult := .ok ()
  putResult := fun _ => .ok ()

/-- An environment in which uploading part 2 fails and everything else
succeeds. -/
def envPart2Fails : MpuEnv where
  createResult := .ok ()
  uploadResult := fun n _ => if n = 2 then .error (.s3Error "InternalError") else .ok ()
  completeResult := fun _ => .ok ()
  abortResult := .ok ()
  putResult := fun _ => .ok ()

/-! ### Lemmas about the shared upload loop -/

theorem uploadParts_shape (env : MpuEnv) (sizes : List Nat) :
    ∀ k acc ev, ev ∈ (uploadParts env sizes k acc).1 →
      (∃ n s, ev = .uploadPart n s) ∨ ev = .abort := by
  induction sizes with
  | nil =>
    intro k acc ev h
    simp [uploadParts] at h
  | cons size rest ih =>
    intro k acc ev h
    rcases hu : env.uploadResult k size with e' | u
    · simp only [uploadParts, hu] at h
      simp at h
      rcases h with h | h
      · exact .inl ⟨k, size, h⟩
      · exact .inr h
    · simp only [uploadParts, hu] at h
      rcases List.mem_cons.mp h with h | h
      · exact .inl ⟨k, size, h⟩
      · exact ih (k + 1) (acc ++ [k]) ev h

theorem uploadParts_fail (env : MpuEnv) (sizes : List Nat) :
    ∀ k acc n s e, .uploadPart n s ∈ (uploadParts env sizes k acc).1 →
      env.uploadResult n s = .error e →
      .abort ∈ (uploadParts env sizes k acc).1 ∧
      (uploadParts env sizes k acc).2 = .error (abortAdjust env e) := by
  induction sizes with
  | nil =>
    intro k acc n s e hmem _
    simp [uploadParts] at hmem
  | cons size rest ih =>
    intro k acc n s e hmem he
    rcases hu : env.uploadResult k size with e' | u
    · simp only [uploadParts, hu] at hmem ⊢
      simp at hmem
      rcases hmem with ⟨hn, hs⟩
      subst hn; subst hs
      rw [hu] at he
      have : e' = e := Except.error.inj he
      subst this
      simp
    · simp only [uploadParts, hu] at hmem ⊢
      rcases List.mem_cons.mp hmem with h | h
      · rcases MpuEvent.uploadPart.inj h.symm with ⟨hn, hs⟩
        subst hn; subst hs
        rw [hu] at he
        exact absurd he (by simp)
      · rcases ih (k + 1) (acc ++ [k]) n s e h he with ⟨h1, h2⟩
        exact ⟨List.mem_cons_of_mem _ h1, h2⟩

theorem uploadParts_ok (env : MpuEnv) (sizes : List Nat) :
    ∀ k acc parts, (uploadParts env sizes k acc).2 = .ok parts →
      parts = acc ++ partNumbersOf (uploadParts env sizes k acc).1 ∧
      .abort ∉ (uploadParts env sizes k acc).1 := by
  induction sizes with
  | nil =>
    intro k acc parts h
    simp only [uploadParts] at h ⊢
    have : acc = parts := Except.ok.inj h
    subst this
    simp [partNumbersOf]
  | cons size rest ih =>
    intro k acc parts h
    rcases hu : env.uploadResult k size with e' | u
    · simp only [uploadParts, hu] at h
      exact absurd h (by simp)
    · simp only [uploadParts, hu] at h ⊢
      rcases ih (k + 1) (acc ++ [k]) parts h with ⟨h1, h2⟩
      constructor
      · rw [h1]
        simp [partNumbersOf]
      · simp only [List.mem_cons, not_or]
        exact ⟨by simp, h2⟩

theorem uploadParts_numbers (env : MpuEnv) (sizes : List Nat) :
    ∀ k acc, partNumbersOf (uploadParts env sizes k acc).1
      = List.range' k (partNumbersOf (uploadParts env sizes k acc).1).length := by
  induction sizes with
  | nil =>
    intro k acc
    simp [uploadParts, partNumbersOf]
  | cons size rest ih =>
    intro k acc
    rcases hu : env.uploadResult k size with e' | u
    · simp only [uploadParts, hu]
      simp [partNumbersOf, List.range'_succ]
    · simp only [uploadParts, hu]
      have hpn : partNumbersOf
          (MpuEvent.uploadPart k size :: (uploadParts env rest (k + 1) (acc ++ [k])).1)
          = k :: partNumbersOf (uploadParts env rest (k + 1) (acc ++ [k])).1 := by
        simp [partNumbersOf]
      rw [hpn, List.length_cons, List.range'_succ]
      exact congrArg (k :: ·) (ih (k + 1) (acc ++ [k]))

/-! ### Lemmas about the create → loop → complete shape -/

theorem mpuRun_fail_upload (env : MpuEnv) (sizes : List Nat) (n s : Nat) (e : MError) :
    .uploadPart n s ∈ (mpuRun env sizes).1 → env.uploadResult n s = .error e →
    .abort ∈ (mpuRun env sizes).1 ∧ (mpuRun env sizes).2 = .error (abortAdjust env e) := by
  intro hmem he
  rcases hc : env.createResult with ce | cu
  · simp only [mpuRun, hc] at hmem
    simp at hmem
  · rcases hr : (uploadParts env sizes 1 []).2 with re | parts
    · simp only [mpuRun, hc, hr] at hmem ⊢
      have hmem' : MpuEvent.uploadPart n s ∈ (uploadParts env sizes 1 []).1 := by
        rcases List.mem_cons.mp hmem with h | h
        · exact absurd h (by simp)
        · exact h
      rcases uploadParts_fail env sizes 1 [] n s e hmem' he with ⟨h1, h2⟩
      rw [hr] at h2
      have hre : re = abortAdjust env e := Except.error.inj h2
      subst hre
      exact ⟨List.mem_cons_of_mem _ h1, rfl⟩
    · simp only [mpuRun, hc, hr] at hmem
      have hmem' : MpuEvent.uploadPart n s ∈ (uploadParts env sizes 1 []).1 := by
        rcases List.mem_cons.mp hmem with h | h
        · exact absurd h (by simp)
        · rcases List.mem_append.mp h with h | h
          · exact h
          · simp at h
      rcases uploadParts_fail env sizes 1 [] n s e hmem' he with ⟨_, h2⟩
      rw [hr] at h2
      exact absurd h2 (by simp)

theorem mpuRun_fail_complete (env : MpuEnv) (sizes : List Nat) (ps : List Nat) (e : MError) :
    .complete ps ∈ (mpuRun env sizes).1 → env.completeResult ps = .error e →
    (mpuRun env sizes).2 = .error e ∧ .abort ∉ (mpuRun env sizes).1 := by
  intro hmem he
  rcases hc : env.createResult with ce | cu
  · simp only [mpuRun, hc] at hmem
    simp at hmem
  · rcases hr : (uploadParts env sizes 1 []).2 with re | parts
    · simp only [mpuRun, hc, hr] at hmem
      have : MpuEvent.complete ps ∈ (uploadParts env sizes 1 []).1 := by
        rcases List.mem_cons.mp hmem with h | h
        · exact absurd h (by simp)
        · exact h
      rcases uploadParts_shape env sizes 1 [] _ this with ⟨n, s, h⟩ | h <;> simp at h
    · simp only [mpuRun, hc, hr] at hmem ⊢
      have hps : ps = parts := by
        rcases List.mem_cons.mp hmem with h | h
        · exact absurd h (by simp)
        · rcases List.mem_append.mp h with h | h
          · rcases uploadParts_shape env sizes 1 [] _ h with ⟨n, s, hh⟩ | hh <;> simp at hh
          · simp at h
            exact h
      subst hps
      rw [he]
      refine ⟨rfl, ?_⟩
      have hnm := (uploadParts_ok env sizes 1 [] ps hr).2
      simp [List.mem_cons, List.mem_append, hnm]

theorem mpuRun_numbers (env : MpuEnv) (sizes : List Nat) :
    partNumbersOf (mpuRun env sizes).1
      = List.range' 1 (partNumbersOf (mpuRun env sizes).1).length ∧
    ∀ ps, .complete ps ∈ (mpuRun env sizes).1 → ps = List.range' 1 ps.length := by
  rcases hc : env.createResult with ce | cu
  · simp only [mpuRun, hc]
    constructor
    · simp [partNumbersOf]
    · intro ps h
      simp at h
  · rcases hr : (uploadParts env sizes 1 []).2 with re | parts
    · simp only [mpuRun, hc, hr]
      constructor
      · simpa [partNumbersOf] using uploadParts_numbers env sizes 1 []
      · intro ps h
        have : MpuEvent.complete ps ∈ (uploadParts env sizes 1 []).1 := by
          rcases List.mem_cons.mp h with h | h
          · exact absurd h (by simp)
          · exact h
        rcases uploadParts_shape env sizes 1 [] _ this with ⟨n, s, hh⟩ | hh <;> simp at hh
    · simp only [mpuRun, hc, hr]
      have hnum := uploadParts_numbers env sizes 1 []
      have hok := uploadParts_ok env sizes 1 [] parts hr
      constructor
      · simpa [partNumbersOf, List.filterMap_append] using hnum
      · intro ps h
        have hps : ps = parts := by
          rcases List.mem_cons.mp h with h | h
          · exact absurd h (by simp)
          · rcases List.mem_append.mp h with h | h
            · rcases uploadParts_shape env sizes 1 [] _ h with ⟨n, s, hh⟩ | hh <;> simp at hh
            · simp at h
              exact h
        subst hps
        have h1 : ps = partNumbersOf (uploadParts env sizes 1 []).1 := by
          simpa using hok.1
        rw [h1]
        exact hnum

/-! ### Lemmas about the streaming loop -/

theorem range'_snoc (s n : Nat) : List.range' s n ++ [s + n] = List.range' s (n + 1) := by
  induction n generalizing s with
  | zero => simp [List.range'_succ]
  | succ n ih =>
    rw [List.range'_succ, List.range'_succ (n := n + 1)]
    simp only [List.cons_append]
    rw [show s + (n + 1) = (s + 1) + n by omega, ih (s + 1)]

theorem streamLoop_fail_upload (env : MpuEnv) (chunks : List (Except MError Nat)) :
    ∀ current parts n s e,
      .uploadPart n s ∈ (streamLoop env chunks current parts).1 →
      env.uploadResult n s = .error e →
      .abort ∈ (streamLoop env chunks current parts).1 ∧
      (streamLoop env chunks current parts).2 = .error (abortAdjust env e) := by
  induction chunks with
  | nil =>
    intro current parts n s e hmem he
    by_cases hcz : current ≠ 0
    · rcases hu : env.uploadResult (parts.length + 1) current with e' | u
      · simp only [streamLoop, if_pos hcz, hu] at hmem ⊢
        simp at hmem
        rcases hmem with ⟨hn, hs⟩
        subst hn; subst hs
        rw [hu] at he
        have : e' = e := Except.error.inj he
        subst this
        simp
      · simp only [streamLoop, if_pos hcz, hu] at hmem
        simp at hmem
        rcases hmem with ⟨hn, hs⟩
        subst hn; subst hs
        rw [hu] at he
        exact absurd he (by simp)
    · simp only [streamLoop, if_neg hcz] at hmem
      simp at hmem
  | cons piece rest ih =>
    intro current parts n s e hmem he
    by_cases hcur : MIN_PART_SIZE ≤ current
    · rcases hu : env.uploadResult (parts.length + 1) current with e' | u
      · simp only [streamLoop, if_pos hcur, hu] at hmem ⊢
        simp at hmem
        rcases hmem with ⟨hn, hs⟩
        subst hn; subst hs
        rw [hu] at he
        have : e' = e := Except.error.inj he
        subst this
        simp
      · rcases piece with pe | c
        · simp only [streamLoop, if_pos hcur, hu] at hmem
          simp at hmem
          rcases hmem with ⟨hn, hs⟩
          subst hn; subst hs
          rw [hu] at he
          exact absurd he (by simp)
        · simp only [streamLoop, if_pos hcur, hu] at hmem ⊢
          rcases List.mem_cons.mp hmem with h | h
          · rcases MpuEvent.uploadPart.inj h with ⟨hn, hs⟩
            subst hn; subst hs
            rw [hu] at he
            exact absurd he (by simp)
          · rcases ih c (parts ++ [parts.length + 1]) n s e h he with ⟨h1, h2⟩
            exact ⟨List.mem_cons_of_mem _ h1, h2⟩
    · rcases piece with pe | c
      · simp only [streamLoop, if_neg hcur] at hmem
        simp at hmem
      · simp only [streamLoop, if_neg hcur] at hmem ⊢
        exact ih (current + c) parts n s e hmem he

theorem streamLoop_fail_complete (env : MpuEnv) (chunks : List (Except MError Nat)) :
    ∀ current parts ps e,
      .complete ps ∈ (streamLoop env chunks current parts).1 →
      env.completeResult ps = .error e →
      (streamLoop env chunks current parts).2 = .error e ∧
      .abort ∉ (streamLoop env chunks current parts).1 := by
  induction chunks with
  | nil =>
    intro current parts ps e hmem he
    by_cases hcz : current ≠ 0
    · rcases hu : env.uploadResult (parts.length + 1) current with e' | u
      · simp only [streamLoop, if_pos hcz, hu] at hmem
        simp at hmem
      · simp only [streamLoop, if_pos hcz, hu] at hmem ⊢
        simp at hmem
        subst hmem
        rw [he]
        exact ⟨rfl, by simp⟩
    · simp only [streamLoop, if_neg hcz] at hmem ⊢
      simp at hmem
      subst hmem
      rw [he]
      exact ⟨rfl, by simp⟩
  | cons piece rest ih =>
    intro current parts ps e hmem he
    by_cases hcur : MIN_PART_SIZE ≤ current
    · rcases hu : env.uploadResult (parts.length + 1) current with e' | u
      · simp only [streamLoop, if_pos hcur, hu] at hmem
        simp at hmem
      · rcases piece with pe | c
        · simp only [streamLoop, if_pos hcur, hu] at hmem
          simp at hmem
        · simp only [streamLoop, if_pos hcur, hu] at hmem ⊢
          have hmem' : MpuEvent.complete ps ∈
              (streamLoop env rest c (parts ++ [parts.length + 1])).1 := by
            rcases List.mem_cons.mp hmem with h | h
            · exact absurd h (by simp)
            · exact h
          rcases ih c (parts ++ [parts.length + 1]) ps e hmem' he with ⟨h1, h2⟩
          refine ⟨h1, ?_⟩
          simp only [List.mem_cons, not_or]
          exact ⟨by simp, h2⟩
    · rcases piece with pe | c
      · simp only [streamLoop, if_neg hcur] at hmem
        simp at hmem
      · simp only [streamLoop, if_neg hcur] at hmem ⊢
        exact ih (current + c) parts ps e hmem he

theorem streamLoop_numbers (env : MpuEnv) (chunks : List (Except MError Nat)) :
    ∀ current parts, parts = List.range' 1 parts.length →
      partNumbersOf (streamLoop env chunks current parts).1
        = List.range' (parts.length + 1)
            (partNumbersOf (streamLoop env chunks current parts).1).length ∧
      ∀ ps, .complete ps ∈ (streamLoop env chunks current parts).1 →
        ps = List.range' 1 ps.length := by
  induction chunks with
  | nil =>
    intro current parts hinv
    by_cases hcz : current ≠ 0
    · rcases hu : env.uploadResult (parts.length + 1) current with e' | u
      · simp only [streamLoop, if_pos hcz, hu]
        constructor
        · simp [partNumbersOf, List.range'_succ]
        · intro ps h
          simp at h
      · simp only [streamLoop, if_pos hcz, hu]
        constructor
        · simp [partNumbersOf, List.range'_succ]
        · intro ps h
          simp at h
          subst h
          rw [List.length_append, hinv, List.length_range']
          rw [show parts.length + [parts.length + 1].length = parts.length + 1 by simp]
          rw [← range'_snoc 1 parts.length]
          rw [hinv, List.length_range']
          rw [show 1 + parts.length = parts.length + 1 by omega]
    · simp only [streamLoop, if_neg hcz]
      constructor
      · simp [partNumbersOf, List.range'_succ]
      · intro ps h
        simp at h
        subst h
        exact hinv
  | cons piece rest ih =>
    intro current parts hinv
    by_cases hcur : MIN_PART_SIZE ≤ current
    · rcases hu : env.uploadResult (parts.length + 1) current with e' | u
      · simp only [streamLoop, if_pos hcur, hu]
        constructor
        · simp [partNumbersOf, List.range'_succ]
        · intro ps h
          simp at h
      · rcases piece with pe | c
        · simp only [streamLoop, if_pos hcur, hu]
          constructor
          · simp [partNumbersOf, List.range'_succ]
          · intro ps h
            simp at h
        · simp only [streamLoop, if_pos hcur, hu]
          have hinv' : parts ++ [parts.length + 1]
              = List.range' 1 (parts ++ [parts.length + 1]).length := by
            rw [List.length_append]
            rw [show parts.length + [parts.length + 1].length = parts.length + 1 by simp]
            rw [← range'_snoc 1 parts.length]
            nth_rewrite 1 [hinv]
            rw [hinv, List.length_range']
            rw [show 1 + parts.length = parts.length + 1 by omega]
          rcases ih c (parts ++ [parts.length + 1]) hinv' with ⟨h1, h2⟩
          constructor
          · have hlen : (parts ++ [parts.length + 1]).length = parts.length + 1 := by simp
            rw [hlen] at h1
            have hpn : partNumbersOf (MpuEvent.uploadPart (parts.length + 1) current ::
                (streamLoop env rest c (parts ++ [parts.length + 1])).1)
                = (parts.length + 1) ::
                  partNumbersOf (streamLoop env rest c (parts ++ [parts.length + 1])).1 := by
              simp [partNumbersOf]
            rw [hpn, List.length_cons, List.range'_succ]
            exact congrArg ((parts.length + 1) :: ·) h1
          · intro ps h
            rcases List.mem_cons.mp h with h | h
            · exact absurd h (by simp)
            · exact h2 ps h
    · rcases piece with pe | c
      · simp only [streamLoop, if_neg hcur]
        constructor
        · simp [partNumbersOf, List.range'_succ]
        · intro ps h
          simp at h
      · simp only [streamLoop, if_neg hcur]
        exact ih (current + c) parts hinv

theorem streamLoop_allok_sizes (chunks : List Nat) :
    ∀ current parts,
      uploadSizesOf (streamLoop envAllOk (chunks.map Except.ok) current parts).1
        = streamParts chunks current := by
  induction chunks with
  | nil =>
    intro current parts
    have hok : ∀ n s, envAllOk.uploadResult n s = Except.ok () := fun _ _ => rfl
    by_cases hcz : current ≠ 0
    · simp only [List.map_nil, streamLoop, if_pos hcz, streamParts, hok]
      simp [uploadSizesOf]
    · simp only [List.map_nil, streamLoop, if_neg hcz, streamParts]
      simp [uploadSizesOf]
  | cons c rest ih =>
    intro current parts
    have hok : ∀ n s, envAllOk.uploadResult n s = Except.ok () := fun _ _ => rfl
    by_cases hcur : MIN_PART_SIZE ≤ current
    · simp only [List.map_cons, streamLoop, if_pos hcur, hok]
      rw [show streamParts (c :: rest) current = current :: streamParts rest c by
        simp [streamParts, if_pos hcur]]
      have hup : uploadSizesOf (MpuEvent.uploadPart (parts.length + 1) current ::
          (streamLoop envAllOk (rest.map Except.ok) c (parts ++ [parts.length + 1])).1)
          = current ::
            uploadSizesOf (streamLoop envAllOk (rest.map Except.ok) c
              (parts ++ [parts.length + 1])).1 := by
        simp [uploadSizesOf]
      rw [hup, ih c (parts ++ [parts.length + 1])]
    · simp only [List.map_cons, streamLoop, if_neg hcur]
      rw [show streamParts (c :: rest) current = streamParts rest (current + c) by
        simp [streamParts, if_neg hcur]]
      exact ih (current + c) parts

theorem streamParts_sum (chunks : List Nat) :
    ∀ current, (streamParts chunks current).sum = current + chunks.sum := by
  induction chunks with
  | nil =>
    intro current
    by_cases hcz : current ≠ 0
    · simp [streamParts, if_pos hcz]
    · simp at hcz
      simp [streamParts, hcz]
  | cons c rest ih =>
    intro current
    by_cases hcur : MIN_PART_SIZE ≤ current
    · simp only [streamParts, if_pos hcur, List.sum_cons]
      rw [ih c]
    · simp only [streamParts, if_neg hcur, List.sum_cons]
      rw [ih (current + c)]
      omega

theorem streamParts_dropLast_ge (chunks : List Nat) :
    ∀ current p, p ∈ (streamParts chunks current).dropLast → MIN_PART_SIZE ≤ p := by
  induction chunks with
  | nil =>
    intro current p hp
    by_cases hcz : current ≠ 0
    · simp [streamParts, if_pos hcz] at hp
    · simp at hcz
      simp [streamParts, hcz] at hp
  | cons c rest ih =>
    intro current p hp
    by_cases hcur : MIN_PART_SIZE ≤ current
    · rw [show streamParts (c :: rest) current = current :: streamParts rest c by
        simp [streamParts, if_pos hcur]] at hp
      rcases hL : streamParts rest c with _ | ⟨a, t⟩
      · rw [hL] at hp
        simp at hp
      · rw [hL, List.dropLast_cons₂, List.mem_cons] at hp
        rcases hp with hp | hp
        · subst hp
          exact hcur
        · exact ih c p (hL ▸ hp)
    · rw [show streamParts (c :: rest) current = streamParts rest (current + c) by
        simp [streamParts, if_neg hcur]] at hp
      exact ih (current + c) p hp

/-! ### Claim theorems about the multipart orchestration -/

theorem mpuRun_trace_ne_nil (env : MpuEnv) (sizes : List Nat) : (mpuRun env sizes).1 ≠ [] := by
  rcases hc : env.createResult with ce | cu
  · simp [mpuRun, hc]
  · rcases hr : (uploadParts env sizes 1 []).2 with re | parts <;> simp [mpuRun, hc, hr]

theorem fput_object_cases (env : MpuEnv) (fs : Nat) :
    fput_object env fs = ([], .error (.valueError "max object size is 5TiB")) ∨
    (∃ r, fput_object env fs = ([.simplePut fs], r)) ∨
    fput_object env fs = mpuRun env (fputPartSizes fs) := by
  unfold fput_object
  by_cases hmax : fs ≥ MAX_MULTIPART_OBJECT_SIZE
  · rw [if_pos hmax]
    exact .inl rfl
  · rw [if_neg hmax]
    by_cases hpc : partCount fs = 1
    · rw [if_pos hpc]
      have hle : ¬ (fs > MIN_PART_SIZE) := by
        intro hgt
        unfold partCount at hpc
        rw [if_pos hgt] at hpc
        have h1 : 1 ≤ fs / MIN_PART_SIZE :=
          (Nat.one_le_div_iff (by decide)).mpr (le_of_lt hgt)
        omega
      refine .inr (.inl ?_)
      unfold put_object
      rw [if_neg hle]
      exact ⟨_, rfl⟩
    · rw [if_neg hpc]
      exact .inr (.inr rfl)

/-- C2 counterexample: in `put_object_large` a failed completion call does
not trigger an abort — with every call succeeding except completion, the
trace ends at the completion call, contains no abort, and the completion
error is returned. -/
theorem multipart_abort_counterexample :
    put_object_large envCompleteFails 1
      = ([.create, .uploadPart 1 1, .complete [1]], .error (.s3Error "InternalError")) ∧
    .abort ∉ (put_object_large envCompleteFails 1).1 := by
  constructor
  · decide
  · decide

/-- C2 (amended): in every multipart orchestration (`put_object_large`,
`put_object_stream`, `fput_object`), a failed part upload triggers an
abort of the session before the operation returns, and the caller
receives an error — the original failure when the abort succeeds, the
abort's own failure when the abort fails; a failed completion call is
propagated to the caller as an error without an abort being issued. -/
theorem multipart_abort_semantics :
    (∀ env len n s e, .uploadPart n s ∈ (put_object_large env len).1 →
      env.uploadResult n s = .error e →
      .abort ∈ (put_object_large env len).1 ∧
      (put_object_large env len).2 = .error (abortAdjust env e)) ∧
    (∀ env len ps e, .complete ps ∈ (put_object_large env len).1 →
      env.completeResult ps = .error e →
      (put_object_large env len).2 = .error e ∧
      .abort ∉ (put_object_large env len).1) ∧
    (∀ env chunks n s e, .uploadPart n s ∈ (put_object_stream env chunks).1 →
      env.uploadResult n s = .error e →
      .abort ∈ (put_object_stream env chunks).1 ∧
      (put_object_stream env chunks).2 = .error (abortAdjust env e)) ∧
    (∀ env chunks ps e, .complete ps ∈ (put_object_stream env chunks).1 →
      env.completeResult ps = .error e →
      (put_object_stream env chunks).2 = .error e ∧
      .abort ∉ (put_object_stream env chunks).1) ∧
    (∀ env fs n s e, .uploadPart n s ∈ (fput_object env fs).1 →
      env.uploadResult n s = .error e →
      .abort ∈ (fput_object env fs).1 ∧
      (fput_object env fs).2 = .error (abortAdjust env e)) ∧
    (∀ env fs ps e, .complete ps ∈ (fput_object env fs).1 →
      env.completeResult ps = .error e →
      (fput_object env fs).2 = .error e ∧
      .abort ∉ (fput_object env fs).1) := by
  refine ⟨?_, ?_, ?_, ?_, ?_, ?_⟩
  · intro env len n s e hmem he
    exact mpuRun_fail_upload env (largePartSizes len) n s e hmem he
  · intro env len ps e hmem he
    exact mpuRun_fail_complete env (largePartSizes len) ps e hmem he
  · intro env chunks n s e hmem he
    rcases hc : env.createResult with ce | cu
    · simp only [put_object_stream, hc] at hmem
      simp at hmem
    · simp only [put_object_stream, hc] at hmem ⊢
      have hmem' : MpuEvent.uploadPart n s ∈ (streamLoop env chunks 0 []).1 := by
        rcases List.mem_cons.mp hmem with h | h
        · exact absurd h (by simp)
        · exact h
      rcases streamLoop_fail_upload env chunks 0 [] n s e hmem' he with ⟨h1, h2⟩
      exact ⟨List.mem_cons_of_mem _ h1, h2⟩
  · intro env chunks ps e hmem he
    rcases hc : env.createResult with ce | cu
    · simp only [put_object_stream, hc] at hmem
      simp at hmem
    · simp only [put_object_stream, hc] at hmem ⊢
      have hmem' : MpuEvent.complete ps ∈ (streamLoop env chunks 0 []).1 := by
        rcases List.mem_cons.mp hmem with h | h
        · exact absurd h (by simp)
        · exact h
      rcases streamLoop_fail_complete env chunks 0 [] ps e hmem' he with ⟨h1, h2⟩
      refine ⟨h1, ?_⟩
      simp only [List.mem_cons, not_or]
      exact ⟨by simp, h2⟩
  · intro env fs n s e hmem he
    rcases fput_object_cases env fs with h | ⟨r, h⟩ | h
    · rw [h] at hmem
      simp at hmem
    · rw [h] at hmem
      simp at hmem
    · rw [h] at hmem ⊢
      exact mpuRun_fail_upload env (fputPartSizes fs) n s e hmem he
  · intro env fs ps e hmem he
    rcases fput_object_cases env fs with h | ⟨r, h⟩ | h
    · rw [h] at hmem
      simp at hmem
    · rw [h] at hmem
      simp at hmem
    · rw [h] at hmem ⊢
      exact mpuRun_fail_complete env (fputPartSizes fs) ps e hmem he

/-- Witness for `multipart_abort_semantics`: part 2 of 2 fails, the abort
succeeds, and the original part-upload error is returned. -/
theorem multipart_abort_semantics_witness :
    .abort ∈ (put_object_large envPart2Fails (MIN_PART_SIZE + 1)).1 ∧
    (put_object_large envPart2Fails (MIN_PART_SIZE + 1)).2
      = .error (abortAdjust envPart2Fails (.s3Error "InternalError")) :=
  multipart_abort_semantics.1 envPart2Fails (MIN_PART_SIZE + 1) 2 1
    (.s3Error "InternalError") (by decide) (by decide)

/-- C3: the code panics instead of returning transport and stream errors
to the caller — `_url_open` unwraps a failed transport send
(client.rs:258-266), and an `Err` item of the input stream reaches the
`todo!()` at operate_object.rs:238 after the session was initiated. -/
theorem transport_and_stream_errors_panic :
    url_open (.error (.transportError "connection refused")) = .panic ∧
    put_object_stream envAllOk [.error (.ioError "read failed")]
      = ([.create], .panic) := by
  constructor
  · rfl
  · decide

/-- C4 counterexample: a total size of exactly 5 TiB does not exceed the
protocol maximum, yet `fput_object` rejects it (`>=` at
operate_object.rs:280). -/
theorem fput_size_bound_counterexample :
    fput_object envAllOk (5 * 1024 * 1024 * 1024 * 1024)
      = ([], .error (.valueError "max object size is 5TiB")) := by
  decide

/-- C4 (amended): `fput_object` rejects a total object size of at least
5 TiB with a validation error before any call is issued (empty trace),
and for any size strictly below the bound the operation proceeds (its
first call is issued). -/
theorem fput_size_bound :
    (∀ env fs, MAX_MULTIPART_OBJECT_SIZE ≤ fs →
      fput_object env fs = ([], .error (.valueError "max object size is 5TiB"))) ∧
    (∀ env fs, fs < MAX_MULTIPART_OBJECT_SIZE → (fput_object env fs).1 ≠ []) := by
  constructor
  · intro env fs hge
    unfold fput_object
    rw [if_pos hge]
  · intro env fs hlt
    have hn : ¬ (fs ≥ MAX_MULTIPART_OBJECT_SIZE) := by omega
    unfold fput_object
    rw [if_neg hn]
    by_cases hpc : partCount fs = 1
    · rw [if_pos hpc]
      unfold put_object
      by_cases hgt : fs > MIN_PART_SIZE
      · rw [if_pos hgt]
        exact mpuRun_trace_ne_nil env (largePartSizes fs)
      · rw [if_neg hgt]
        simp
    · rw [if_neg hpc]
      exact mpuRun_trace_ne_nil env (fputPartSizes fs)

/-- Witness for `fput_size_bound` just above and just below the bound. -/
theorem fput_size_bound_witness :
    fput_object envAllOk (MAX_MULTIPART_OBJECT_SIZE + 1)
      = ([], .error (.valueError "max object size is 5TiB")) ∧
    (fput_object envAllOk 1).1 ≠ [] :=
  ⟨fput_size_bound.1 envAllOk (MAX_MULTIPART_OBJECT_SIZE + 1) (by omega),
   fput_size_bound.2 envAllOk 1 (by decide)⟩

/-- C8: `put_object_stream` accumulates incoming chunks and uploads
exactly the parts of the buffer/flush discipline `streamParts`; the
uploaded parts carry all streamed bytes (the remainder is flushed as the
final part), and every part except the final one has size at least
`MIN_PART_SIZE` — whatever the chunk sizes. -/
theorem stream_buffering :
    (∀ chunks : List Nat,
      uploadSizesOf (put_object_stream envAllOk (chunks.map Except.ok)).1
        = streamParts chunks 0) ∧
    (∀ chunks : List Nat, (streamParts chunks 0).sum = chunks.sum) ∧
    (∀ chunks : List Nat, ∀ p ∈ (streamParts chunks 0).dropLast, MIN_PART_SIZE ≤ p) := by
  refine ⟨?_, ?_, ?_⟩
  · intro chunks
    have hstep : put_object_stream envAllOk (chunks.map Except.ok)
        = (MpuEvent.create :: (streamLoop envAllOk (chunks.map Except.ok) 0 []).1,
           (streamLoop envAllOk (chunks.map Except.ok) 0 []).2) := rfl
    rw [hstep]
    rw [show uploadSizesOf (MpuEvent.create ::
          (streamLoop envAllOk (chunks.map Except.ok) 0 []).1)
        = uploadSizesOf (streamLoop envAllOk (chunks.map Except.ok) 0 []).1 from by
      simp [uploadSizesOf]]
    exact streamLoop_allok_sizes chunks 0 []
  · intro chunks
    simpa using streamParts_sum chunks 0
  · intro chunks p hp
    exact streamParts_dropLast_ge chunks 0 p hp

/-- Witness for `stream_buffering`: two chunks, the first exactly
`MIN_PART_SIZE`, produce a full-size non-final part. -/
theorem stream_buffering_witness : MIN_PART_SIZE ≤ MIN_PART_SIZE :=
  stream_buffering.2.2 [MIN_PART_SIZE, 1] MIN_PART_SIZE (by decide)

/-- C9: in every multipart orchestration the k-th uploaded part carries
part number k (contiguous from 1), and the part list handed to the
completion call is `[1, …, m]`, in ascending part-number order. -/
theorem contiguous_part_numbers :
    (∀ env len,
      partNumbersOf (put_object_large env len).1
        = List.range' 1 (partNumbersOf (put_object_large env len).1).length ∧
      ∀ ps, .complete ps ∈ (put_object_large env len).1 →
        ps = List.range' 1 ps.length) ∧
    (∀ env chunks,
      partNumbersOf (put_object_stream env chunks).1
        = List.range' 1 (partNumbersOf (put_object_stream env chunks).1).length ∧
      ∀ ps, .complete ps ∈ (put_object_stream env chunks).1 →
        ps = List.range' 1 ps.length) ∧
    (∀ env fs,
      partNumbersOf (fput_object env fs).1
        = List.range' 1 (partNumbersOf (fput_object env fs).1).length ∧
      ∀ ps, .complete ps ∈ (fput_object env fs).1 →
        ps = List.range' 1 ps.length) := by
  refine ⟨?_, ?_, ?_⟩
  · intro env len
    exact mpuRun_numbers env (largePartSizes len)
  · intro env chunks
    rcases hc : env.createResult with ce | cu
    · simp only [put_object_stream, hc]
      constructor
      · simp [partNumbersOf]
      · intro ps h
        simp at h
    · simp only [put_object_stream, hc]
      have hinv : ([] : List Nat) = List.range' 1 ([] : List Nat).length := rfl
      rcases streamLoop_numbers env chunks 0 [] hinv with ⟨h1, h2⟩
      constructor
      · rw [show partNumbersOf (MpuEvent.create ::
              (streamLoop env chunks 0 []).1)
            = partNumbersOf (streamLoop env chunks 0 []).1 from by
          simp [partNumbersOf]]
        simpa using h1
      · intro ps h
        rcases List.mem_cons.mp h with h | h
        · exact absurd h (by simp)
        · exact h2 ps h
  · intro env fs
    rcases fput_object_cases env fs with h | ⟨r, h⟩ | h
    · rw [h]
      constructor
      · simp [partNumbersOf]
      · intro ps hh
        simp at hh
    · rw [h]
      constructor
      · simp [partNumbersOf]
      · intro ps hh
        simp at hh
    · rw [h]
      exact mpuRun_numbers env (fputPartSizes fs)

/-- Witness for `contiguous_part_numbers`: the part list completed by a
one-part `put_object_large` run. -/
theorem contiguous_part_numbers_witness :
    ([1] : List Nat) = List.range' 1 ([1] : List Nat).length :=
  (contiguous_part_numbers.1 envAllOk 1).2 [1] (by decide)

/-! ## Client construction and the HOST header (`client.rs`) -/

/-- Embedding of `str::starts_with`, over the character list. -/
def strStartsWith (s pre : String) : Bool :=
  decide (s.toList.take pre.toList.length = pre.toList)

/-- Byte/character drop used for stripping the URL scheme
(`host[8..]` / `host[7..]`; the stripped prefixes are ASCII). -/
def strDrop (s : String) (n : Nat) : String := ⟨s.toList.drop n⟩

/-- The `Builder` state (client.rs:20-31); the credentials provider is
tracked by presence only and the HTTP client override is not modelled
(src/ exposes no setter for it). -/
structure Builder where
  host : Option String
  chost : Option String
  region : String
  agent : String
  secure : Bool
  hasProvider : Bool
deriving DecidableEq, Repr

/-- Embedding of `Builder::new` (client.rs:34-44). -/
def Builder.new : Builder where
  host := none
  chost := none
  region := "us-east-1"
  agent := "MinIO (Linux; x86_64) minio-rs"
  secure := true
  hasProvider := false

/-- Embedding of `Builder::host` (client.rs:47-50): assigns `self.host`. -/
def Builder.withHost (b : Builder) (h : String) : Builder := { b with host := some h }

/-- Embedding of `Builder::chost` (client.rs:53-56): assigns `self.host`, not
`self.chost`. -/
def Builder.withChost (b : Builder) (h : String) : Builder := { b with host := some h }

/-- One call to a public `Builder` setter (client.rs:47-93). -/
inductive BuilderOp where
  | host (s : String)
  | chost (s : String)
  | region (s : String)
  | agent (s : String)
  | secure (v : Bool)
  | provider
deriving DecidableEq, Repr

/-- Apply one setter call. -/
def applyOp (b : Builder) : BuilderOp → Builder
  | .host s => b.withHost s
  | .chost s => b.withChost s
  | .region s => { b with region := s }
  | .agent s => { b with agent := s }
  | .secure v => { b with secure := v }
  | .provider => { b with hasProvider := true }

/-- Apply a sequence of setter calls. -/
def applyOps (ops : List BuilderOp) (b : Builder) : Builder := ops.foldl applyOp b

/-- The fields of the built client relevant to the claims
(`MinioRef`, client.rs:168-176). -/
structure MinioModel where
  host : String
  chost : String
  secure : Bool
  region : String
  agent : String
deriving DecidableEq, Repr

/-- Embedding of `Builder::build` (client.rs:95-144): requires a host, validates it
against the hostname regex (abstracted as the oracle `hostValid`),
requires a provider, strips an explicit scheme, and fills `chost` with
`self.chost.unwrap_or("127.0.0.1")` (client.rs:136). -/
def Builder.build (hostValid : String → Bool) (b : Builder) :
    Except MError MinioModel :=
  match b.host with
  | none => .error (.valueError "Miss host")
  | some host0 =>
    if !hostValid host0 then .error (.valueError "Invalid hostname")
    else if !b.hasProvider then .error (.valueError "Miss provide")
    else
      let hs : String × Bool :=
        if strStartsWith host0 "https://" then (strDrop host0 8, true)
        else if strStartsWith host0 "http://" then (strDrop host0 7, false)
        else (host0, b.secure)
      .ok {
        host := (if b.secure then "https://" else "http://") ++ hs.1
        chost := b.chost.getD "127.0.0.1"
        secure := hs.2
        region := b.region
        agent := b.agent }

/-- Embedding of `HeaderMap::insert` semantics over an association list: any previous
value for the key is replaced. -/
def insertHeader (hs : List (String × String)) (k v : String) :
    List (String × String) :=
  (hs.filter fun kv => !(kv.1 == k)) ++ [(k, v)]

/-- Last-inserted value for a key. -/
def headerValue (hs : List (String × String)) (k : String) : Option String :=
  (hs.reverse.find? fun kv => kv.1 == k).map fun kv => kv.2

/-- Embedding of `Minio::_wrap_headers` (client.rs:184-202): inserts the user agent,
the content length when positive, `HOST` (set to the client's `chost`,
client.rs:199), the payload hash and the date into the header map of
every signed request. -/
def wrap_headers (m : MinioModel) (hs : List (String × String))
    (content_sha256 date : String) (content_length : Nat) :
    List (String × String) :=
  let hs := insertHeader hs "User-Agent" m.agent
  let hs := if content_length > 0 then
      insertHeader hs "Content-Length" (toString content_length)
    else hs
  let hs := insertHeader hs "HOST" m.chost
  let hs := insertHeader hs "X-Amz-Content-Sha256" content_sha256
  insertHeader hs "X-Amz-Date" date

theorem find?_filter_ne (k k' : String) (hk : k ≠ k') :
    ∀ l : List (String × String),
      (l.filter fun kv => !(kv.1 == k')).find? (fun kv => kv.1 == k)
        = l.find? fun kv => kv.1 == k := by
  intro l
  induction l with
  | nil => rfl
  | cons a t ih =>
    by_cases ha : a.1 == k'
    · have hak : (a.1 == k) = false := by
        have : a.1 = k' := by simpa using ha
        subst this
        simpa using fun hh => hk hh.symm
      rw [List.filter_cons, List.find?_cons]
      simp only [ha, hak]
      simpa [hak] using ih
    · rw [List.filter_cons, List.find?_cons]
      simp only [ha]
      by_cases hak : a.1 == k
      · simp [List.find?_cons, hak]
      · simp only [Bool.not_eq_true] at ha hak
        simp [List.find?_cons, ha, hak, ih]

theorem headerValue_insert_self (hs : List (String × String)) (k v : String) :
    headerValue (insertHeader hs k v) k = some v := by
  unfold headerValue insertHeader
  rw [List.reverse_append]
  simp [List.find?_cons]

theorem headerValue_insert_ne (hs : List (String × String)) (k k' v : String)
    (h : k ≠ k') :
    headerValue (insertHeader hs k' v) k = headerValue hs k := by
  unfold headerValue insertHeader
  rw [List.reverse_append]
  have hkk : ((k', v).1 == k) = false := by
    simpa using fun hh => h hh.symm
  simp only [List.reverse_cons, List.reverse_nil, List.nil_append,
    List.singleton_append, List.find?_cons, hkk]
  rw [← List.filter_reverse]
  rw [find?_filter_ne k k' h]

theorem wrap_headers_host (m : MinioModel) (hs : List (String × String))
    (sha date : String) (cl : Nat) :
    headerValue (wrap_headers m hs sha date cl) "HOST" = some m.chost := by
  unfold wrap_headers
  rw [headerValue_insert_ne _ _ _ _ (by decide)]
  rw [headerValue_insert_ne _ _ _ _ (by decide)]
  exact headerValue_insert_self _ _ _

theorem applyOps_chost (ops : List BuilderOp) :
    ∀ b : Builder, (applyOps ops b).chost = b.chost := by
  induction ops with
  | nil =>
    intro b
    rfl
  | cons op rest ih =>
    intro b
    have hstep : (applyOp b op).chost = b.chost := by
      cases op <;> rfl
    calc (applyOps (op :: rest) b).chost
        = (applyOps rest (applyOp b op)).chost := rfl
      _ = (applyOp b op).chost := ih (applyOp b op)
      _ = b.chost := hstep

/-- C10: `Builder::chost` assigns the builder's `host` field (it has the
same effect as `host`) and never sets the `chost` field, so every built
client keeps the default `chost` value `"127.0.0.1"`, and every request
the client signs carries the `HOST` header value `"127.0.0.1"` whatever
builder calls were made. -/
theorem chost_never_takes_effect :
    (∀ b s, Builder.withChost b s = Builder.withHost b s) ∧
    (∀ b s, (Builder.withChost b s).chost = b.chost) ∧
    (∀ ops, (applyOps ops Builder.new).chost = none) ∧
    (∀ hostValid ops m,
      Builder.build hostValid (applyOps ops Builder.new) = .ok m →
      m.chost = "127.0.0.1") ∧
    (∀ hostValid ops m hs sha date cl,
      Builder.build hostValid (applyOps ops Builder.new) = .ok m →
      headerValue (wrap_headers m hs sha date cl) "HOST" = some "127.0.0.1") := by
  have hchost : ∀ hostValid ops m,
      Builder.build hostValid (applyOps ops Builder.new) = .ok m →
      m.chost = "127.0.0.1" := by
    intro hostValid ops m hb
    have hnone : (applyOps ops Builder.new).chost = none := by
      rw [applyOps_chost ops Builder.new]
      rfl
    unfold Builder.build at hb
    rcases hh : (applyOps ops Builder.new).host with _ | host0
    · rw [hh] at hb
      exact absurd hb (by simp)
    · rw [hh] at hb
      by_cases hv : hostValid host0
      · by_cases hp : (applyOps ops Builder.new).hasProvider
        · simp only [hv, hp, Bool.not_true, Bool.false_eq_true, if_false] at hb
          have hm := Except.ok.inj hb
          rw [← hm]
          simp [hnone]
        · simp only [hv, hp, Bool.not_true, Bool.not_false, if_false, if_true] at hb
          exact absurd hb (by simp)
      · simp only [Bool.not_eq_true] at hv
        simp only [hv, Bool.not_false, if_true] at hb
        exact absurd hb (by simp)
  refine ⟨fun b s => rfl, fun b s => rfl, ?_, hchost, ?_⟩
  · intro ops
    rw [applyOps_chost ops Builder.new]
    rfl
  · intro hostValid ops m hs sha date cl hb
    rw [wrap_headers_host m hs sha date cl, hchost hostValid ops m hb]

/-- Witness for `chost_never_takes_effect`: a builder configured through
`chost("example.com")` still signs with `HOST: 127.0.0.1`. -/
theorem chost_never_takes_effect_witness :
    headerValue
      (wrap_headers
        ⟨"https://example.com", "127.0.0.1", true, "us-east-1",
         "MinIO (Linux; x86_64) minio-rs"⟩
        [] "sha" "date" 0)
      "HOST" = some "127.0.0.1" :=
  chost_never_takes_effect.2.2.2.2 (fun _ => true)
    [.provider, .chost "example.com"]
    ⟨"https://example.com", "127.0.0.1", true, "us-east-1",
     "MinIO (Linux; x86_64) minio-rs"⟩
    [] "sha" "date" 0 (by decide)

end SCMinio
